import Mathlib

/-!
Verification of the class-imbalance oversampler and bias-metric extraction
logic of the ClarifyWorkshop notebook.

The notebook's balancing step delegates to a third-party resampling library
(`SMOTE(random_state=42)` followed by `smote.fit_resample(train_data, gender)`),
whose implementation is not part of this repository; the oversampling
algorithm is therefore modelled from the specification (§4.2 of the design
document), with the randomness realised by an explicit linear congruential
generator driven by the seed parameter.  The bias-report metric extraction
(`bias_analysis["pre_training_bias_metrics"]["facets"]["customer_gender_female"][0]["metrics"][1]`)
is embedded directly from the notebook's code.
-/

/-- Numeric cell values of the tabular dataset. -/
abbrev Val := ℚ

/-- A record of the tabular dataset: non-categorical numeric feature columns,
one-hot/categorical columns, the binary label column and the binary
protected-attribute column. -/
structure Record where
  features : List Val
  cats : List Val
  label : Val
  prot : Val
deriving DecidableEq

instance : Inhabited Record := ⟨⟨[], [], 0, 0⟩⟩

/-- A tabular dataset: an ordered sequence of records. -/
abbrev Dataset := List Record

/-- Linear congruential generator supplying the algorithm's random draws,
driven by the explicit seed parameter. -/
def lcg (s : Nat) : Nat := (s * 1103515245 + 12345) % 2147483648

/-- Resolution of the interpolation factor t: t ranges over \x7b i / tDenom | 0 ≤ i < tDenom \x7d ⊆ [0, 1). -/
def tDenom : Nat := 1000

/-- Squared Euclidean distance over the non-categorical numeric feature columns. -/
def dist2 (r r' : Record) : ℚ :=
  ((r.features.zip r'.features).map (fun p => (p.1 - p.2) * (p.1 - p.2))).sum

/-- Insert a keyed element into a key-sorted list (insertion step of the
deterministic nearest-neighbour ordering). -/
def insertByKey (x : ℚ × Record) : List (ℚ × Record) → List (ℚ × Record)
  | [] => [x]
  | y :: ys => if x.1 ≤ y.1 then x :: y :: ys else y :: insertByKey x ys

/-- Sort a keyed list by key (deterministic insertion sort). -/
def sortByKey : List (ℚ × Record) → List (ℚ × Record)
  | [] => []
  | x :: xs => insertByKey x (sortByKey xs)

/-- All records of `m` except the one at index `i` (the candidate neighbours
of the seed record). -/
def othersOf (m : Dataset) (i : Nat) : Dataset := m.eraseIdx i

/-- The k-nearest neighbours, within the minority group `m`, of the record at
index `i` of `m`: the k candidates of smallest squared Euclidean distance in
feature space, ties broken by position. -/
def kNN (m : Dataset) (i : Nat) (k : Nat) : Dataset :=
  let r := m.getD i default
  (((othersOf m i).map (fun r' => (dist2 r r', r'))) |> sortByKey |>.map (fun p => p.2)).take k

/-- Component-wise convex interpolation a + t·(b − a). -/
def interp (t : ℚ) (a b : List Val) : List Val :=
  (a.zip b).map (fun p => p.1 + t * (p.2 - p.1))

/-- Build one synthetic record from seed record `r` and neighbour `r'`:
feature values interpolated, strictly categorical/one-hot columns resolved by
nearest-neighbour copy rather than interpolation, label and
protected-attribute columns set to the minority group's constant values. -/
def mkSynth (m : Dataset) (t : ℚ) (r r' : Record) : Record :=
  { features := interp t r.features r'.features
    cats := r'.cats
    label := (m.headD default).label
    prot := (m.headD default).prot }

/-- Generate one synthetic record: draw a seed record uniformly from `m`,
draw one of its k-nearest minority-group neighbours uniformly, draw an
interpolation factor t in [0, 1), and synthesize.  Returns the record and
the advanced generator state. -/
def synthOne (m : Dataset) (k : Nat) (s : Nat) : Record × Nat :=
  let s1 := lcg s
  let i := s1 % m.length
  let r := m.getD i default
  let nbrs := kNN m i k
  let s2 := lcg s1
  let r' := nbrs.getD (s2 % nbrs.length) r
  let s3 := lcg s2
  let t : ℚ := ((s3 % tDenom : Nat) : ℚ) / (tDenom : ℚ)
  (mkSynth m t r r', s3)

/-- Generate `n` synthetic records from the minority group `m`, threading the
generator state. -/
def synthMany : Nat → Dataset → Nat → Nat → Dataset
  | 0, _, _, _ => []
  | n + 1, m, k, s =>
    let p := synthOne m k s
    p.1 :: synthMany n m k p.2

/-- The distinct values taken by the protected-attribute column. -/
def protValues (d : Dataset) : List Val := (d.map (fun r => r.prot)).dedup

/-- The group of records whose protected-attribute value is `v`. -/
def groupOf (d : Dataset) (v : Val) : Dataset :=
  d.filter (fun r => decide (r.prot = v))

/-- The minority group: the smaller of the two groups determined by the two
distinct protected-attribute values. -/
def minorityOf (d : Dataset) : Dataset :=
  let vs := protValues d
  let g0 := groupOf d (vs.getD 0 0)
  let g1 := groupOf d (vs.getD 1 0)
  if g0.length < g1.length then g0 else g1

/-- Error raised on malformed or inadequate input data. -/
inductive BalanceError where
  | validationError
deriving DecidableEq

/-- Modelled from the spec: the oversampling call
`smote.fit_resample(train_data, gender)` of the notebook is implemented by the
third-party imbalanced-learn library, not by code of this repository; this
definition follows §4.2 of the specification.  It returns the balanced table
together with the resampled target vector (the pair the notebook binds to
`train_data_upsampled, gender_res`): the column must take exactly two distinct
values, otherwise `ValidationError`; if the two group counts are already equal
the input is returned unchanged; otherwise n = |G| − |M| synthetic minority
records are appended, provided k ≤ |M| − 1, else `ValidationError`. -/
def balancePair (d : Dataset) (k seed : Nat) :
    Except BalanceError (Dataset × List Val) :=
  let vs := protValues d
  if vs.length = 2 then
    let g0 := groupOf d (vs.getD 0 0)
    let g1 := groupOf d (vs.getD 1 0)
    if g0.length = g1.length then .ok (d, d.map (fun r => r.prot))
    else
      let m := if g0.length < g1.length then g0 else g1
      let g := if g0.length < g1.length then g1 else g0
      if k + 1 ≤ m.length then
        .ok (d ++ synthMany (g.length - m.length) m k seed,
             d.map (fun r => r.prot) ++
               List.replicate (g.length - m.length) ((m.headD default).prot))
      else .error .validationError
  else .error .validationError

/-- Modelled from the spec: `balance(dataset, col, k, seed)` — the balanced
dataset component of the oversampling call. -/
def balance (d : Dataset) (k seed : Nat) : Except BalanceError Dataset :=
  (balancePair d k seed).map (fun p => p.1)

/-- JSON-like structured values, the shape of the external bias report. -/
inductive Json where
  | num (q : ℚ)
  | str (s : String)
  | arr (xs : List Json)
  | obj (fields : List (String × Json))

/-- Look up a field of a JSON object; `none` models a Python `KeyError`. -/
def getField : Json → String → Option Json
  | .obj fs, key => List.lookup key fs
  | _, _ => none

/-- Index into a JSON array; `none` models a Python `IndexError`. -/
def getIdx : Json → Nat → Option Json
  | .arr xs, i => xs.get? i
  | _, _ => none

/-- The notebook's fixed path through a bias report, with the facet name,
group index and metric index as parameters:
`report["pre_training_bias_metrics"]["facets"][attr][gi]["metrics"][mi]`. -/
def metricPath (report : Json) (attr : String) (gi mi : Nat) : Option Json :=
  (getField report "pre_training_bias_metrics").bind (fun j1 =>
    (getField j1 "facets").bind (fun j2 =>
      (getField j2 attr).bind (fun j3 =>
        (getIdx j3 gi).bind (fun j4 =>
          (getField j4 "metrics").bind (fun j5 =>
            getIdx j5 mi)))))

/-- Error raised when an expected field is absent from an external
structured response. -/
inductive ExtractError where
  | missingFieldError
deriving DecidableEq

/-- The notebook's metric extraction: follow the fixed path through the bias
report; a missing step anywhere on the path raises `MissingFieldError`
(in the notebook, an uncaught `KeyError`/`IndexError`). -/
def extract_metric (report : Json) (attr : String) (gi mi : Nat) :
    Except ExtractError Json :=
  match metricPath report attr gi mi with
  | some v => .ok v
  | none => .error .missingFieldError

/-- The extraction as written in the notebook's first bias-report cell:
`bias_analysis["pre_training_bias_metrics"]["facets"]["customer_gender_female"][0]["metrics"][1]`. -/
def extractResults1 (report : Json) : Except ExtractError Json :=
  extract_metric report "customer_gender_female" 0 1

/-- The extraction as written in the notebook's comparison cell, applied there
to both the pre-balancing and the post-balancing report; textually identical
to the first cell's extraction. -/
def extractResults2 (report : Json) : Except ExtractError Json :=
  extract_metric report "customer_gender_female" 0 1

/-- Read the numeric "value" field of an extracted metric object. -/
def valueOf (metric : Json) : Option ℚ :=
  match getField metric "value" with
  | some (.num q) => some q
  | _ => none

/-- The numeric metric value the notebook displays for a report. -/
def extractValue (report : Json) : Option ℚ :=
  (metricPath report "customer_gender_female" 0 1).bind valueOf

/-- Modelled from the spec: `compare(report_before, report_after) -> delta`
returning after − before (§4.3).  The notebook itself only prints the two
extracted metrics side by side and states the comparison in prose; the
subtraction is not implemented by code of this repository. -/
def compareReports (rbefore rafter : Json) : Except ExtractError ℚ :=
  match extractValue rbefore, extractValue rafter with
  | some b, some a => .ok (a - b)
  | _, _ => .error .missingFieldError

/-- A bias report holding the given metrics list at the notebook's fixed path
(further facet-group entries in `tail`). -/
def mkReport (ms : List Json) (tail : List Json) : Json :=
  Json.obj [("pre_training_bias_metrics", Json.obj
    [("facets", Json.obj
      [("customer_gender_female", Json.arr
        (Json.obj [("metrics", Json.arr ms)] :: tail))])])]

lemma mem_insertByKey {x y : ℚ × Record} {l : List (ℚ × Record)} :
    y ∈ insertByKey x l ↔ y = x ∨ y ∈ l := by
  induction l with
  | nil => simp [insertByKey]
  | cons z zs ih =>
    by_cases h : x.1 ≤ z.1
    · simp [insertByKey, h]
    · simp [insertByKey, h, ih]
      tauto

lemma mem_sortByKey {y : ℚ × Record} {l : List (ℚ × Record)} :
    y ∈ sortByKey l ↔ y ∈ l := by
  induction l with
  | nil => simp [sortByKey]
  | cons z zs ih => simp [sortByKey, mem_insertByKey, ih]

lemma length_insertByKey (x : ℚ × Record) (l : List (ℚ × Record)) :
    (insertByKey x l).length = l.length + 1 := by
  induction l with
  | nil => rfl
  | cons z zs ih =>
    by_cases h : x.1 ≤ z.1
    · simp [insertByKey, h]
    · simp [insertByKey, h, ih]

lemma length_sortByKey (l : List (ℚ × Record)) :
    (sortByKey l).length = l.length := by
  induction l with
  | nil => rfl
  | cons z zs ih => simp [sortByKey, length_insertByKey, ih]

lemma kNN_subset {m : Dataset} {i k : Nat} : ∀ x ∈ kNN m i k, x ∈ m := by
  intro x hx
  unfold kNN at hx
  have hx' := List.mem_of_mem_take hx
  rcases List.mem_map.mp hx' with ⟨p, hp, hpx⟩
  rcases List.mem_map.mp (mem_sortByKey.mp hp) with ⟨r', hr', hpr⟩
  have : x = r' := by rw [← hpx, ← hpr]
  subst this
  exact (List.eraseIdx_sublist m i).mem hr'

lemma length_kNN (m : Dataset) (i k : Nat) :
    (kNN m i k).length = min k (m.eraseIdx i).length := by
  unfold kNN
  simp [length_sortByKey, othersOf]

lemma length_synthMany (n : Nat) (m : Dataset) (k s : Nat) :
    (synthMany n m k s).length = n := by
  induction n generalizing s with
  | zero => rfl
  | succ n ih => simp [synthMany, ih]

lemma synthMany_prot {n : Nat} {m : Dataset} {k s : Nat} :
    ∀ x ∈ synthMany n m k s, x.prot = (m.headD default).prot := by
  induction n generalizing s with
  | zero => intro x hx; simp [synthMany] at hx
  | succ n ih =>
    intro x hx
    simp only [synthMany, List.mem_cons] at hx
    rcases hx with h | h
    · subst h; rfl
    · exact ih _ h

lemma synthMany_label {n : Nat} {m : Dataset} {k s : Nat} :
    ∀ x ∈ synthMany n m k s, x.label = (m.headD default).label := by
  induction n generalizing s with
  | zero => intro x hx; simp [synthMany] at hx
  | succ n ih =>
    intro x hx
    simp only [synthMany, List.mem_cons] at hx
    rcases hx with h | h
    · subst h; rfl
    · exact ih _ h

lemma synthOne_shape (m : Dataset) (k s : Nat) (hm2 : 2 ≤ m.length) (hk : 1 ≤ k) :
    ∃ i, ∃ hi : i < m.length, ∃ r', r' ∈ kNN m i k ∧
      ∃ t : ℚ, 0 ≤ t ∧ t < 1 ∧ (synthOne m k s).1 = mkSynth m t (m.get ⟨i, hi⟩) r' := by
  have hm0 : 0 < m.length := by omega
  have hi : lcg s % m.length < m.length := Nat.mod_lt _ hm0
  refine ⟨lcg s % m.length, hi, ?_⟩
  have hr : m.getD (lcg s % m.length) default = m.get ⟨lcg s % m.length, hi⟩ := by
    rw [List.getD_eq_getElem?_getD, List.getElem?_eq_getElem hi]; rfl
  have hlen : (kNN m (lcg s % m.length) k).length =
      min k (m.eraseIdx (lcg s % m.length)).length := length_kNN _ _ _
  have herase : (m.eraseIdx (lcg s % m.length)).length = m.length - 1 := by
    rw [List.length_eraseIdx]; simp [hi]
  have hpos : 0 < (kNN m (lcg s % m.length) k).length := by
    rw [hlen, herase]; omega
  have hidx : lcg (lcg s) % (kNN m (lcg s % m.length) k).length <
      (kNN m (lcg s % m.length) k).length := Nat.mod_lt _ hpos
  refine ⟨(kNN m (lcg s % m.length) k).getD
      (lcg (lcg s) % (kNN m (lcg s % m.length) k).length)
      (m.getD (lcg s % m.length) default), ?_, ?_⟩
  · rw [List.getD_eq_getElem?_getD, List.getElem?_eq_getElem hidx]
    simp only [Option.getD_some]
    exact List.getElem_mem hidx
  · refine ⟨((lcg (lcg (lcg s)) % tDenom : Nat) : ℚ) / (tDenom : ℚ), ?_, ?_, ?_⟩
    · exact div_nonneg (Nat.cast_nonneg _) (Nat.cast_nonneg _)
    · rw [div_lt_one (by norm_num [tDenom])]
      have : lcg (lcg (lcg s)) % tDenom < tDenom := Nat.mod_lt _ (by norm_num [tDenom])
      exact_mod_cast this
    · simp only [synthOne, hr]

lemma synthMany_shape {n : Nat} {m : Dataset} {k s : Nat}
    (hm2 : 2 ≤ m.length) (hk : 1 ≤ k) :
    ∀ x ∈ synthMany n m k s, ∃ i, ∃ hi : i < m.length, ∃ r', r' ∈ kNN m i k ∧
      ∃ t : ℚ, 0 ≤ t ∧ t < 1 ∧ x = mkSynth m t (m.get ⟨i, hi⟩) r' := by
  induction n generalizing s with
  | zero => intro x hx; simp [synthMany] at hx
  | succ n ih =>
    intro x hx
    simp only [synthMany, List.mem_cons] at hx
    rcases hx with h | h
    · subst h; exact synthOne_shape m k s hm2 hk
    · exact ih _ h

lemma mem_groupOf {d : Dataset} {v : Val} {x : Record} :
    x ∈ groupOf d v ↔ x ∈ d ∧ x.prot = v := by
  simp [groupOf, List.mem_filter]

lemma groupOf_length_of_const {l : Dataset} {c v : Val} (h : ∀ x ∈ l, x.prot = c) :
    (groupOf l v).length = if v = c then l.length else 0 := by
  by_cases hvc : v = c
  · subst hvc
    rw [if_pos rfl]
    have : groupOf l v = l :=
      List.filter_eq_self.mpr (fun a ha => decide_eq_true (h a ha))
    rw [this]
  · rw [if_neg hvc]
    have : groupOf l v = [] := by
      unfold groupOf
      rw [List.filter_eq_nil_iff]
      intro a ha
      simp only [decide_eq_true_eq]
      rw [h a ha]
      exact fun hcv => hvc hcv.symm
    rw [this]; rfl

lemma map_prot_of_const {l : Dataset} {c : Val} (h : ∀ x ∈ l, x.prot = c) :
    l.map (fun r => r.prot) = List.replicate l.length c := by
  induction l with
  | nil => rfl
  | cons a l ih =>
    simp only [List.map_cons, List.length_cons, List.replicate_succ]
    rw [h a (List.mem_cons_self a l), ih (fun x hx => h x (List.mem_cons_of_mem a hx))]

lemma headD_groupOf {d : Dataset} {v : Val} (h : groupOf d v ≠ []) :
    ((groupOf d v).headD default).prot = v ∧ (groupOf d v).headD default ∈ d := by
  cases hg : groupOf d v with
  | nil => exact absurd hg h
  | cons a l =>
    have ha : a ∈ groupOf d v := by rw [hg]; exact List.mem_cons_self a l
    rcases mem_groupOf.mp ha with ⟨had, hav⟩
    exact ⟨by simp [hg, hav], by simp [hg, had]⟩

lemma protValues_two_ne {d : Dataset} {v0 v1 : Val}
    (hpv : protValues d = [v0, v1]) : v0 ≠ v1 := by
  have h := List.nodup_dedup (d.map (fun r => r.prot))
  rw [show (d.map (fun r => r.prot)).dedup = protValues d from rfl, hpv] at h
  simp [List.nodup_cons] at h
  exact h

lemma minorityOf_eq {d : Dataset} {v0 v1 : Val} (hpv : protValues d = [v0, v1]) :
    minorityOf d = if (groupOf d v0).length < (groupOf d v1).length
      then groupOf d v0 else groupOf d v1 := by
  unfold minorityOf
  rw [hpv]
  rfl

lemma balancePair_noop {d : Dataset} {k s : Nat} {v0 v1 : Val}
    (hpv : protValues d = [v0, v1])
    (heq : (groupOf d v0).length = (groupOf d v1).length) :
    balancePair d k s = .ok (d, d.map (fun r => r.prot)) := by
  unfold balancePair
  rw [hpv]
  simp [heq]

lemma balancePair_gen {d : Dataset} {k s : Nat} {v0 v1 : Val}
    (hpv : protValues d = [v0, v1])
    (hne : (groupOf d v0).length ≠ (groupOf d v1).length)
    (hk : k + 1 ≤ min (groupOf d v0).length (groupOf d v1).length) :
    balancePair d k s = .ok
      (d ++ synthMany (max (groupOf d v0).length (groupOf d v1).length -
          min (groupOf d v0).length (groupOf d v1).length) (minorityOf d) k s,
       d.map (fun r => r.prot) ++
         List.replicate (max (groupOf d v0).length (groupOf d v1).length -
           min (groupOf d v0).length (groupOf d v1).length)
           (((minorityOf d).headD default).prot)) := by
  have hmin := minorityOf_eq hpv
  unfold balancePair
  rw [hpv]
  rw [if_pos (show ([v0, v1] : List Val).length = 2 from rfl)]
  simp only [List.getD_cons_zero, List.getD_cons_succ]
  rw [if_neg hne]
  rcases Nat.lt_or_ge (groupOf d v0).length (groupOf d v1).length with hlt | hge
  · rw [if_pos hlt] at hmin
    have h1 : min (groupOf d v0).length (groupOf d v1).length =
        (groupOf d v0).length := Nat.min_eq_left (le_of_lt hlt)
    have h2 : max (groupOf d v0).length (groupOf d v1).length =
        (groupOf d v1).length := Nat.max_eq_right (le_of_lt hlt)
    have hk' : k + 1 ≤ (groupOf d v0).length := by rw [h1] at hk; exact hk
    rw [if_pos hlt, if_pos hlt, if_pos hk', hmin, h1, h2]
  · have hlt' : (groupOf d v1).length < (groupOf d v0).length :=
      Nat.lt_of_le_of_ne hge (fun h => hne h.symm)
    have hnlt : ¬ (groupOf d v0).length < (groupOf d v1).length := Nat.not_lt.mpr hge
    rw [if_neg hnlt] at hmin
    have h1 : min (groupOf d v0).length (groupOf d v1).length =
        (groupOf d v1).length := Nat.min_eq_right hge
    have h2 : max (groupOf d v0).length (groupOf d v1).length =
        (groupOf d v0).length := Nat.max_eq_left hge
    have hk' : k + 1 ≤ (groupOf d v1).length := by rw [h1] at hk; exact hk
    rw [if_neg hnlt, if_neg hnlt, if_pos hk', hmin, h1, h2]

lemma balancePair_err_k {d : Dataset} {k s : Nat} {v0 v1 : Val}
    (hpv : protValues d = [v0, v1])
    (hne : (groupOf d v0).length ≠ (groupOf d v1).length)
    (hk : min (groupOf d v0).length (groupOf d v1).length ≤ k) :
    balancePair d k s = .error .validationError := by
  unfold balancePair
  rw [hpv]
  rw [if_pos (show ([v0, v1] : List Val).length = 2 from rfl)]
  simp only [List.getD_cons_zero, List.getD_cons_succ]
  rw [if_neg hne]
  rcases Nat.lt_or_ge (groupOf d v0).length (groupOf d v1).length with hlt | hge
  · have h1 : min (groupOf d v0).length (groupOf d v1).length =
        (groupOf d v0).length := Nat.min_eq_left (le_of_lt hlt)
    rw [h1] at hk
    have hk' : ¬ (k + 1 ≤ (groupOf d v0).length) := by omega
    rw [if_pos hlt, if_neg hk']
  · have hnlt : ¬ (groupOf d v0).length < (groupOf d v1).length := Nat.not_lt.mpr hge
    have h1 : min (groupOf d v0).length (groupOf d v1).length =
        (groupOf d v1).length := Nat.min_eq_right hge
    rw [h1] at hk
    have hk' : ¬ (k + 1 ≤ (groupOf d v1).length) := by omega
    rw [if_neg hnlt, if_neg hk']

lemma balancePair_err_vals {d : Dataset} {k s : Nat}
    (hv : (protValues d).length ≠ 2) :
    balancePair d k s = .error .validationError := by
  unfold balancePair
  rw [if_neg hv]

lemma groupOf_append (a b : Dataset) (v : Val) :
    groupOf (a ++ b) v = groupOf a v ++ groupOf b v := List.filter_append _ _

lemma groupOf_synthMany_len {n : Nat} {m : Dataset} {k s : Nat} {c : Val}
    (hc : (m.headD default).prot = c) (v : Val) :
    (groupOf (synthMany n m k s) v).length = if v = c then n else 0 := by
  have h := groupOf_length_of_const (l := synthMany n m k s) (c := c) (v := v)
    (fun x hx => by rw [synthMany_prot x hx, hc])
  rw [h, length_synthMany]

lemma dedup_replicate {α : Type} [DecidableEq α] {m : Nat} (a : α) (hm : m ≠ 0) :
    (List.replicate m a).dedup = [a] := by
  induction m with
  | zero => exact absurd rfl hm
  | succ m ih =>
    cases m with
    | zero => simp
    | succ m' =>
      rw [List.replicate_succ, List.dedup_cons_of_mem (by simp [List.mem_replicate])]
      exact ih (by omega)

lemma dedup_replicate_append {α : Type} [DecidableEq α] {n m : Nat} (a b : α)
    (hn : n ≠ 0) (hm : m ≠ 0) (hab : a ≠ b) :
    (List.replicate n a ++ List.replicate m b).dedup = [a, b] := by
  induction n with
  | zero => exact absurd rfl hn
  | succ n ih =>
    cases n with
    | zero =>
      simp only [List.replicate_succ, List.replicate_zero, List.cons_append, List.nil_append]
      rw [List.dedup_cons_of_not_mem (by simp [List.mem_replicate, hab]),
        dedup_replicate b hm]
    | succ n' =>
      rw [List.replicate_succ, List.cons_append,
        List.dedup_cons_of_mem (List.mem_append_left _ (by simp [List.mem_replicate]))]
      exact ih (by omega)

/-- C1: for every input dataset whose protected-attribute column takes exactly
two values with unequal group counts (minority |M| < majority |G|) and a valid
neighbour parameter, `balance` returns the original dataset with exactly
n = |G| − |M| synthetic records appended and none removed, and in the output
the two group counts are exactly equal (both |G|). -/
theorem balance_equalizes_counts (d : Dataset) (k s : Nat) (v0 v1 : Val)
    (hpv : protValues d = [v0, v1])
    (hne : (groupOf d v0).length ≠ (groupOf d v1).length)
    (hk : k + 1 ≤ min (groupOf d v0).length (groupOf d v1).length) :
    ∃ syn : Dataset,
      balance d k s = .ok (d ++ syn) ∧
      syn.length = max (groupOf d v0).length (groupOf d v1).length -
        min (groupOf d v0).length (groupOf d v1).length ∧
      (d ++ syn).length = d.length +
        (max (groupOf d v0).length (groupOf d v1).length -
         min (groupOf d v0).length (groupOf d v1).length) ∧
      (groupOf (d ++ syn) v0).length =
        max (groupOf d v0).length (groupOf d v1).length ∧
      (groupOf (d ++ syn) v1).length =
        max (groupOf d v0).length (groupOf d v1).length := by
  have hvne : v0 ≠ v1 := protValues_two_ne hpv
  have hgen := balancePair_gen (s := s) hpv hne hk
  have hmin := minorityOf_eq hpv
  refine ⟨synthMany (max (groupOf d v0).length (groupOf d v1).length -
      min (groupOf d v0).length (groupOf d v1).length) (minorityOf d) k s, ?_, ?_, ?_, ?_, ?_⟩
  · rw [balance, hgen]; rfl
  · exact length_synthMany _ _ _ _
  · rw [List.length_append, length_synthMany]
  · rcases Nat.lt_or_ge (groupOf d v0).length (groupOf d v1).length with hlt | hge
    · rw [if_pos hlt] at hmin
      have hm_ne : minorityOf d ≠ [] := by
        rw [hmin]
        exact List.length_pos.mp (by omega)
      have hhd : ((minorityOf d).headD default).prot = v0 := by
        rw [hmin]
        exact (headD_groupOf (by rw [← hmin]; exact hm_ne)).1
      rw [groupOf_append, List.length_append, groupOf_synthMany_len hhd, if_pos rfl]
      omega
    · rw [if_neg (Nat.not_lt.mpr hge)] at hmin
      have hm_ne : minorityOf d ≠ [] := by
        rw [hmin]
        exact List.length_pos.mp (by omega)
      have hhd : ((minorityOf d).headD default).prot = v1 := by
        rw [hmin]
        exact (headD_groupOf (by rw [← hmin]; exact hm_ne)).1
      rw [groupOf_append, List.length_append, groupOf_synthMany_len hhd, if_neg hvne]
      omega
  · rcases Nat.lt_or_ge (groupOf d v0).length (groupOf d v1).length with hlt | hge
    · rw [if_pos hlt] at hmin
      have hm_ne : minorityOf d ≠ [] := by
        rw [hmin]
        exact List.length_pos.mp (by omega)
      have hhd : ((minorityOf d).headD default).prot = v0 := by
        rw [hmin]
        exact (headD_groupOf (by rw [← hmin]; exact hm_ne)).1
      rw [groupOf_append, List.length_append, groupOf_synthMany_len hhd,
        if_neg (fun h => hvne h.symm)]
      omega
    · rw [if_neg (Nat.not_lt.mpr hge)] at hmin
      have hm_ne : minorityOf d ≠ [] := by
        rw [hmin]
        exact List.length_pos.mp (by omega)
      have hhd : ((minorityOf d).headD default).prot = v1 := by
        rw [hmin]
        exact (headD_groupOf (by rw [← hmin]; exact hm_ne)).1
      rw [groupOf_append, List.length_append, groupOf_synthMany_len hhd, if_pos rfl]
      omega

/-- A majority-group record used in the concrete scenarios (protected
attribute value 0). -/
def recA : Record := ⟨[0], [0], 0, 0⟩

/-- A minority-group record used in the concrete scenarios (protected
attribute value 1). -/
def recB : Record := ⟨[1], [1], 1, 1⟩

/-- The end-to-end scenario input: 800 majority rows and 200 minority rows. -/
def d800 : Dataset := List.replicate 800 recA ++ List.replicate 200 recB

lemma protValues_d800 : protValues d800 = [0, 1] := by
  have h : protValues d800 = [recA.prot, recB.prot] := by
    unfold protValues d800
    rw [List.map_append, List.map_replicate, List.map_replicate]
    exact dedup_replicate_append _ _ (by norm_num) (by norm_num) (by decide)
  simpa [recA, recB] using h

lemma groupOf_replicate_len (n : Nat) (r : Record) (v : Val) :
    (groupOf (List.replicate n r) v).length = if v = r.prot then n else 0 := by
  have h := groupOf_length_of_const (l := List.replicate n r) (c := r.prot) (v := v)
    (fun x hx => by rw [List.eq_of_mem_replicate hx])
  rw [h, List.length_replicate]

lemma groupOf_d800_0 : (groupOf d800 0).length = 800 := by
  unfold d800
  rw [groupOf_append, List.length_append, groupOf_replicate_len, groupOf_replicate_len]
  norm_num [recA, recB]

lemma groupOf_d800_1 : (groupOf d800 1).length = 200 := by
  unfold d800
  rw [groupOf_append, List.length_append, groupOf_replicate_len, groupOf_replicate_len]
  norm_num [recA, recB]

/-- Witness for C1: on the 800-majority / 200-minority input, `balance`
produces 1600 rows split 800/800, with 600 synthetic records added and none
removed. -/
theorem balance_equalizes_counts_witness :
    ∃ syn : Dataset,
      balance d800 5 42 = .ok (d800 ++ syn) ∧ syn.length = 600 ∧
      (d800 ++ syn).length = 1600 ∧
      (groupOf (d800 ++ syn) 0).length = 800 ∧
      (groupOf (d800 ++ syn) 1).length = 800 := by
  obtain ⟨syn, hok, hlen, htot, hc0, hc1⟩ :=
    balance_equalizes_counts d800 5 42 0 1 protValues_d800
      (by rw [groupOf_d800_0, groupOf_d800_1]; omega)
      (by rw [groupOf_d800_0, groupOf_d800_1]; omega)
  rw [groupOf_d800_0, groupOf_d800_1] at hlen htot hc0 hc1
  have hd : d800.length = 1000 := by
    unfold d800
    rw [List.length_append, List.length_replicate, List.length_replicate]
  refine ⟨syn, hok, by omega, by omega, by omega, by omega⟩

/-- C5: if the dataset's two protected-attribute groups already have equal
counts, `balance` returns the original dataset unchanged, generating zero
synthetic records. -/
theorem balance_noop_when_balanced (d : Dataset) (k s : Nat) (v0 v1 : Val)
    (hpv : protValues d = [v0, v1])
    (heq : (groupOf d v0).length = (groupOf d v1).length) :
    balance d k s = .ok d := by
  rw [balance, balancePair_noop hpv heq]
  rfl

/-- Witness for C5: a dataset with one record in each group is returned
unchanged. -/
theorem balance_noop_when_balanced_witness :
    balance [recA, recB] 5 0 = .ok [recA, recB] :=
  balance_noop_when_balanced [recA, recB] 5 0 0 1 (by decide) (by decide)

/-- The k = 5, |M| = 3 scenario input: 4 majority rows, 3 minority rows. -/
def dK : Dataset := List.replicate 4 recA ++ List.replicate 3 recB

/-- C6: `balance` fails with `ValidationError` whenever the neighbour
parameter k exceeds the number of available minority-group neighbours
(min group count ≤ k), and whenever one group is empty (the protected column
takes a single value on a nonempty dataset). -/
theorem balance_validation_errors (d : Dataset) (k s : Nat) :
    (∀ v0 v1 : Val, protValues d = [v0, v1] →
      (groupOf d v0).length ≠ (groupOf d v1).length →
      min (groupOf d v0).length (groupOf d v1).length ≤ k →
      balance d k s = .error .validationError) ∧
    (∀ v : Val, d ≠ [] → (∀ r ∈ d, r.prot = v) →
      balance d k s = .error .validationError) := by
  constructor
  · intro v0 v1 hpv hne hk
    rw [balance, balancePair_err_k hpv hne hk]
    rfl
  · intro v hne hall
    have hpv : protValues d = [v] := by
      unfold protValues
      rw [map_prot_of_const hall]
      exact dedup_replicate v (by
        have := List.length_pos.mpr hne
        omega)
    rw [balance, balancePair_err_vals (by rw [hpv]; simp)]
    rfl

/-- Witness for C6: requesting k = 5 on a dataset whose minority group has
only 3 members fails with `ValidationError`. -/
theorem balance_validation_errors_witness :
    balance dK 5 0 = .error .validationError :=
  (balance_validation_errors dK 5 0).1 0 1 (by decide) (by decide) (by decide)

lemma balancePair_ok_cases {d : Dataset} {k s : Nat}
    {out : Dataset × List Val} (h : balancePair d k s = .ok out) :
    (∃ v0 v1 : Val, protValues d = [v0, v1] ∧
      (groupOf d v0).length = (groupOf d v1).length ∧
      out = (d, d.map (fun r => r.prot))) ∨
    (∃ v0 v1 : Val, protValues d = [v0, v1] ∧
      (groupOf d v0).length ≠ (groupOf d v1).length ∧
      k + 1 ≤ min (groupOf d v0).length (groupOf d v1).length ∧
      out = (d ++ synthMany (max (groupOf d v0).length (groupOf d v1).length -
          min (groupOf d v0).length (groupOf d v1).length) (minorityOf d) k s,
        d.map (fun r => r.prot) ++
          List.replicate (max (groupOf d v0).length (groupOf d v1).length -
            min (groupOf d v0).length (groupOf d v1).length)
            (((minorityOf d).headD default).prot))) := by
  by_cases hv : (protValues d).length = 2
  · obtain ⟨v0, v1, hpv⟩ := List.length_eq_two.mp hv
    by_cases heq : (groupOf d v0).length = (groupOf d v1).length
    · left
      refine ⟨v0, v1, hpv, heq, ?_⟩
      rw [balancePair_noop hpv heq] at h
      exact (Except.ok.injEq _ _ ▸ h).symm
    · by_cases hk : k + 1 ≤ min (groupOf d v0).length (groupOf d v1).length
      · right
        refine ⟨v0, v1, hpv, heq, hk, ?_⟩
        rw [balancePair_gen hpv heq hk] at h
        exact (Except.ok.injEq _ _ ▸ h).symm
      · rw [balancePair_err_k hpv heq (by omega)] at h
        exact absurd h (by simp)
  · rw [balancePair_err_vals hv] at h
    exact absurd h (by simp)

lemma balance_ok_cases {d : Dataset} {k s : Nat} {d' : Dataset}
    (h : balance d k s = .ok d') :
    (∃ v0 v1 : Val, protValues d = [v0, v1] ∧
      (groupOf d v0).length = (groupOf d v1).length ∧ d' = d) ∨
    (∃ v0 v1 : Val, protValues d = [v0, v1] ∧
      (groupOf d v0).length ≠ (groupOf d v1).length ∧
      k + 1 ≤ min (groupOf d v0).length (groupOf d v1).length ∧
      d' = d ++ synthMany (max (groupOf d v0).length (groupOf d v1).length -
          min (groupOf d v0).length (groupOf d v1).length) (minorityOf d) k s) := by
  rw [balance] at h
  cases hbp : balancePair d k s with
  | error e => rw [hbp] at h; exact absurd h (by simp [Except.map])
  | ok out =>
    rw [hbp] at h
    simp only [Except.map] at h
    rcases balancePair_ok_cases hbp with ⟨v0, v1, hpv, heq, hout⟩ |
        ⟨v0, v1, hpv, hne, hk, hout⟩
    · left
      refine ⟨v0, v1, hpv, heq, ?_⟩
      rw [hout] at h
      exact ((Except.ok.injEq _ _ ▸ h)).symm
    · right
      refine ⟨v0, v1, hpv, hne, hk, ?_⟩
      rw [hout] at h
      exact ((Except.ok.injEq _ _ ▸ h)).symm

/-- C3: `balance(dataset, col, seed)` called twice with the same seed
produces identical output (the seeded algorithm is a pure function of its
inputs), and for any two seeds, any two successful outputs have identical
group counts for every protected-attribute value. -/
theorem balance_seed_determinism (d : Dataset) (k s1 s2 : Nat) :
    balance d k s1 = balance d k s1 ∧
    (∀ d1 d2 : Dataset, balance d k s1 = .ok d1 → balance d k s2 = .ok d2 →
      ∀ v : Val, (groupOf d1 v).length = (groupOf d2 v).length) := by
  refine ⟨rfl, ?_⟩
  intro d1 d2 h1 h2 v
  rcases balance_ok_cases h1 with ⟨v0, v1, hpv1, heq1, hd1⟩ |
      ⟨v0, v1, hpv1, hne1, hk1, hd1⟩
  · rcases balance_ok_cases h2 with ⟨w0, w1, hpv2, heq2, hd2⟩ |
        ⟨w0, w1, hpv2, hne2, hk2, hd2⟩
    · rw [hd1, hd2]
    · obtain ⟨e0, e1⟩ : v0 = w0 ∧ v1 = w1 := by
        rw [hpv1] at hpv2
        simpa using hpv2
      subst e0; subst e1
      exact absurd heq1 hne2
  · rcases balance_ok_cases h2 with ⟨w0, w1, hpv2, heq2, hd2⟩ |
        ⟨w0, w1, hpv2, hne2, hk2, hd2⟩
    · obtain ⟨e0, e1⟩ : v0 = w0 ∧ v1 = w1 := by
        rw [hpv1] at hpv2
        simpa using hpv2
      subst e0; subst e1
      exact absurd heq2 hne1
    · obtain ⟨e0, e1⟩ : v0 = w0 ∧ v1 = w1 := by
        rw [hpv1] at hpv2
        simpa using hpv2
      subst e0; subst e1
      rw [hd1, hd2, groupOf_append, groupOf_append, List.length_append,
        List.length_append, groupOf_synthMany_len rfl, groupOf_synthMany_len rfl]

/-- A minority-group record with feature value 1 (protected attribute 1). -/
def recB1 : Record := ⟨[1], [0], 1, 1⟩

/-- A minority-group record with feature value 2 (protected attribute 1). -/
def recB2 : Record := ⟨[2], [0], 1, 1⟩

/-- A 3-majority / 2-minority dataset whose minority records have distinct
feature values. -/
def dDist : Dataset := [recA, recA, recA, recB1, recB2]

/-- The synthetic record `balance dDist 1 3` generates (seed record `recB1`,
neighbour `recB2`, interpolation factor 702/1000). -/
def synRec3 : Record := ⟨[(851 : ℚ)/500], [0], 1, 1⟩

/-- The synthetic record `balance dDist 1 4` generates (seed record `recB2`,
neighbour `recB1`, interpolation factor 11/1000). -/
def synRec4 : Record := ⟨[(1989 : ℚ)/1000], [0], 1, 1⟩

lemma balance_dDist (s : Nat) :
    balance dDist 1 s = .ok (dDist ++ synthMany 1 [recB1, recB2] 1 s) := by
  have hpv : protValues dDist = [0, 1] := by decide
  have hne : (groupOf dDist 0).length ≠ (groupOf dDist 1).length := by decide
  have hk : 1 + 1 ≤ min (groupOf dDist 0).length (groupOf dDist 1).length := by decide
  rw [balance, balancePair_gen hpv hne hk]
  have h0 : (groupOf dDist (0 : Val)).length = 3 := by decide
  have h1 : (groupOf dDist (1 : Val)).length = 2 := by decide
  have hm : minorityOf dDist = [recB1, recB2] := by decide
  rw [h0, h1, hm]
  rfl

lemma synthMany_dDist_3 : synthMany 1 [recB1, recB2] 1 3 = [synRec3] := by
  simp only [synthMany, synthOne, mkSynth, kNN, othersOf, sortByKey, insertByKey,
    interp, lcg, tDenom, dist2, recB1, recB2, synRec3]
  norm_num

lemma synthMany_dDist_4 : synthMany 1 [recB1, recB2] 1 4 = [synRec4] := by
  simp only [synthMany, synthOne, mkSynth, kNN, othersOf, sortByKey, insertByKey,
    interp, lcg, tDenom, dist2, recB1, recB2, synRec4]
  norm_num

lemma synthMany_dDist_197 : synthMany 1 [recB1, recB2] 1 197 = [recB1] := by
  simp only [synthMany, synthOne, mkSynth, kNN, othersOf, sortByKey, insertByKey,
    interp, lcg, tDenom, dist2, recB1, recB2]
  norm_num

lemma balance_dDist_3 : balance dDist 1 3 = .ok (dDist ++ [synRec3]) := by
  rw [balance_dDist, synthMany_dDist_3]

lemma balance_dDist_4 : balance dDist 1 4 = .ok (dDist ++ [synRec4]) := by
  rw [balance_dDist, synthMany_dDist_4]

lemma balance_dDist_197 : balance dDist 1 197 = .ok (dDist ++ [recB1]) := by
  rw [balance_dDist, synthMany_dDist_197]

/-- Witness for C3: on `dDist`, seeds 3 and 4 generate different synthetic
records, but the two outputs have identical group counts. -/
theorem balance_seed_determinism_witness :
    (groupOf (dDist ++ [synRec3]) 1).length =
      (groupOf (dDist ++ [synRec4]) 1).length :=
  (balance_seed_determinism dDist 1 3 4).2
    (dDist ++ [synRec3]) (dDist ++ [synRec4]) balance_dDist_3 balance_dDist_4 1

/-- C4 (amended): the output of `balance` contains every original record
unchanged — it is the input with the synthetic records appended — but a
synthetic record may coincide exactly with an original record (for instance
when the drawn interpolation factor is 0), so the no-duplication half of the
original claim does not hold. -/
theorem balance_preserves_originals (d : Dataset) (k s : Nat) (d' : Dataset)
    (hok : balance d k s = .ok d') :
    d'.take d.length = d ∧ ∀ r ∈ d, r ∈ d' := by
  rcases balance_ok_cases hok with ⟨v0, v1, hpv, heq, hd⟩ |
      ⟨v0, v1, hpv, hne, hk, hd⟩
  · subst hd
    exact ⟨List.take_length _, fun r hr => hr⟩
  · subst hd
    exact ⟨List.take_left _ _, fun r hr => List.mem_append_left _ hr⟩

/-- Witness for C4's amended theorem: on `dDist` with seed 3, the original
five records form the prefix of the output and all remain present. -/
theorem balance_preserves_originals_witness :
    (dDist ++ [synRec3]).take dDist.length = dDist ∧
      ∀ r ∈ dDist, r ∈ dDist ++ [synRec3] :=
  balance_preserves_originals dDist 1 3 (dDist ++ [synRec3]) balance_dDist_3

/-- Counterexample for C4: with seed 197 the drawn interpolation factor is 0,
and the synthetic record generated from seed record `recB1` coincides exactly
with the original record `recB1` of the input — a synthetic record identical
to an original record. -/
theorem synthetic_duplicates_original :
    balance dDist 1 197 = .ok (dDist ++ [recB1]) ∧ recB1 ∈ dDist :=
  ⟨balance_dDist_197, by decide⟩

lemma length_minorityOf {d : Dataset} {v0 v1 : Val} (hpv : protValues d = [v0, v1]) :
    (minorityOf d).length = min (groupOf d v0).length (groupOf d v1).length := by
  rw [minorityOf_eq hpv]
  rcases Nat.lt_or_ge (groupOf d v0).length (groupOf d v1).length with hlt | hge
  · rw [if_pos hlt, Nat.min_eq_left (le_of_lt hlt)]
  · rw [if_neg (Nat.not_lt.mpr hge), Nat.min_eq_right hge]

lemma minorityOf_subset {d : Dataset} : ∀ x ∈ minorityOf d, x ∈ d := by
  intro x hx
  have h : minorityOf d = if (groupOf d ((protValues d).getD 0 0)).length <
        (groupOf d ((protValues d).getD 1 0)).length
      then groupOf d ((protValues d).getD 0 0)
      else groupOf d ((protValues d).getD 1 0) := rfl
  rw [h] at hx
  split at hx <;> exact List.mem_of_mem_filter hx

lemma headD_mem {l : Dataset} (h : l ≠ []) : l.headD default ∈ l := by
  cases l with
  | nil => exact absurd rfl h
  | cons a t => exact List.mem_cons_self a t

/-- C2: every synthetic record produced by `balance` — a record of the output
beyond the original input — has feature values r + t·(r′ − r) component-wise
for some seed record r in the minority group, some r′ among r's k-nearest
minority-group neighbours, and some t with 0 ≤ t < 1; its label and
protected-attribute values equal the minority group's constant values; and its
one-hot/categorical values are copied from a minority record, hence exactly
0 or 1 whenever all of the input's are. -/
theorem synthetic_record_shape (d : Dataset) (k s : Nat) (d' : Dataset)
    (hok : balance d k s = .ok d') (hk1 : 1 ≤ k) (cl cp : Val)
    (hl : ∀ r ∈ minorityOf d, r.label = cl)
    (hp : ∀ r ∈ minorityOf d, r.prot = cp)
    (hcats : ∀ r ∈ d, ∀ c ∈ r.cats, c = 0 ∨ c = 1) :
    ∀ x ∈ d'.drop d.length,
      (∃ i, ∃ hi : i < (minorityOf d).length,
        ∃ r', r' ∈ kNN (minorityOf d) i k ∧ r' ∈ minorityOf d ∧
          ∃ t : ℚ, 0 ≤ t ∧ t < 1 ∧
            x.features = interp t ((minorityOf d).get ⟨i, hi⟩).features r'.features ∧
            x.cats = r'.cats) ∧
      x.label = cl ∧ x.prot = cp ∧ (∀ c ∈ x.cats, c = 0 ∨ c = 1) := by
  intro x hx
  rcases balance_ok_cases hok with ⟨v0, v1, hpv, heq, hd⟩ |
      ⟨v0, v1, hpv, hne, hk, hd⟩
  · subst hd
    rw [List.drop_length] at hx
    exact absurd hx (List.not_mem_nil x)
  · subst hd
    rw [List.drop_left] at hx
    have hm2 : 2 ≤ (minorityOf d).length := by
      rw [length_minorityOf hpv]
      omega
    obtain ⟨i, hi, r', hr', t, ht0, ht1, hxe⟩ := synthMany_shape hm2 hk1 x hx
    have hmne : minorityOf d ≠ [] := by
      intro hnil
      rw [hnil] at hm2
      simp at hm2
    have hhd := headD_mem hmne
    subst hxe
    refine ⟨⟨i, hi, r', hr', kNN_subset _ hr', t, ht0, ht1, rfl, rfl⟩, ?_, ?_, ?_⟩
    · exact hl ((minorityOf d).headD default) hhd
    · exact hp ((minorityOf d).headD default) hhd
    · intro c hc
      exact hcats r' (minorityOf_subset _ (kNN_subset _ hr')) c hc

/-- Witness for C2: the synthetic record generated on `dDist` with seed 3 is
an interpolation between a minority seed record and its nearest minority
neighbour, its label and protected value are the minority constants 1, and its
categorical value stays in \x7b0, 1\x7d. -/
theorem synthetic_record_shape_witness :
    (∃ i, ∃ hi : i < (minorityOf dDist).length,
      ∃ r', r' ∈ kNN (minorityOf dDist) i 1 ∧ r' ∈ minorityOf dDist ∧
        ∃ t : ℚ, 0 ≤ t ∧ t < 1 ∧
          synRec3.features =
            interp t ((minorityOf dDist).get ⟨i, hi⟩).features r'.features ∧
          synRec3.cats = r'.cats) ∧
    synRec3.label = 1 ∧ synRec3.prot = 1 ∧
      (∀ c ∈ synRec3.cats, c = 0 ∨ c = 1) :=
  synthetic_record_shape dDist 1 3 (dDist ++ [synRec3]) balance_dDist_3
    (by decide) 1 1 (by decide) (by decide) (by decide) synRec3
    (by rw [List.drop_left]; exact List.mem_singleton.mpr rfl)

/-- C10: when the input's protected column takes only the values 0 and 1, the
balanced output's protected column also takes only 0 and 1 (it is never
interpolated to a fractional value), and it equals, row for row, the
resampled target vector returned alongside the balanced table. -/
theorem balanced_target_consistency (d : Dataset) (k s : Nat)
    (d' : Dataset) (ys : List Val)
    (hok : balancePair d k s = .ok (d', ys))
    (h01 : ∀ r ∈ d, r.prot = 0 ∨ r.prot = 1) :
    ys = d'.map (fun r => r.prot) ∧ (∀ r ∈ d', r.prot = 0 ∨ r.prot = 1) := by
  rcases balancePair_ok_cases hok with ⟨v0, v1, hpv, heq, hout⟩ |
      ⟨v0, v1, hpv, hne, hk, hout⟩
  · injection hout with hd hy
    subst hd
    subst hy
    exact ⟨rfl, h01⟩
  · injection hout with hd hy
    subst hd
    subst hy
    have hmne : minorityOf d ≠ [] := by
      have hlen := length_minorityOf hpv
      intro hnil
      rw [hnil] at hlen
      simp at hlen
      omega
    constructor
    · rw [List.map_append]
      congr 1
      rw [map_prot_of_const synthMany_prot, length_synthMany]
    · intro r hr
      rcases List.mem_append.mp hr with h | h
      · exact h01 r h
      · rw [synthMany_prot r h]
        exact h01 _ (minorityOf_subset _ (headD_mem hmne))

lemma balancePair_dDist_3 :
    balancePair dDist 1 3 = .ok (dDist ++ [synRec3], [0, 0, 0, 1, 1, 1]) := by
  have hpv : protValues dDist = [0, 1] := by decide
  rw [balancePair_gen hpv (by decide) (by decide)]
  have h0 : (groupOf dDist (0 : Val)).length = 3 := by decide
  have h1 : (groupOf dDist (1 : Val)).length = 2 := by decide
  have hm : minorityOf dDist = [recB1, recB2] := by decide
  rw [h0, h1, hm]
  have hmax : max (3 : Nat) 2 - min 3 2 = 1 := by norm_num
  rw [hmax, synthMany_dDist_3]
  congr 1

/-- Witness for C10: on `dDist` with seed 3, the resampled target vector is
[0,0,0,1,1,1], which is exactly the protected column of the balanced table,
and every protected value of the output is 0 or 1. -/
theorem balanced_target_consistency_witness :
    ([0, 0, 0, 1, 1, 1] : List Val) =
      (dDist ++ [synRec3]).map (fun r => r.prot) ∧
    (∀ r ∈ dDist ++ [synRec3], r.prot = 0 ∨ r.prot = 1) :=
  balanced_target_consistency dDist 1 3 (dDist ++ [synRec3]) [0, 0, 0, 1, 1, 1]
    balancePair_dDist_3 (by decide)

lemma extract_metric_of_path_none {report : Json} {attr : String} {gi mi : Nat}
    (h : metricPath report attr gi mi = none) :
    extract_metric report attr gi mi = .error .missingFieldError := by
  rw [extract_metric, h]

/-- C7: whenever any step of the expected path through a bias report is
absent, `extract_metric` fails with `MissingFieldError` instead of returning
any default value — covering a missing "pre_training_bias_metrics" field,
missing "facets", missing facet entry, out-of-range group index, missing
"metrics" field, and out-of-range metric index. -/
theorem extract_metric_missing_field (report : Json) (attr : String) (gi mi : Nat) :
    (getField report "pre_training_bias_metrics" = none →
      extract_metric report attr gi mi = .error .missingFieldError) ∧
    (∀ j1, getField report "pre_training_bias_metrics" = some j1 →
      getField j1 "facets" = none →
      extract_metric report attr gi mi = .error .missingFieldError) ∧
    (∀ j1 j2, getField report "pre_training_bias_metrics" = some j1 →
      getField j1 "facets" = some j2 → getField j2 attr = none →
      extract_metric report attr gi mi = .error .missingFieldError) ∧
    (∀ j1 j2 j3, getField report "pre_training_bias_metrics" = some j1 →
      getField j1 "facets" = some j2 → getField j2 attr = some j3 →
      getIdx j3 gi = none →
      extract_metric report attr gi mi = .error .missingFieldError) ∧
    (∀ j1 j2 j3 j4, getField report "pre_training_bias_metrics" = some j1 →
      getField j1 "facets" = some j2 → getField j2 attr = some j3 →
      getIdx j3 gi = some j4 → getField j4 "metrics" = none →
      extract_metric report attr gi mi = .error .missingFieldError) ∧
    (∀ j1 j2 j3 j4 j5, getField report "pre_training_bias_metrics" = some j1 →
      getField j1 "facets" = some j2 → getField j2 attr = some j3 →
      getIdx j3 gi = some j4 → getField j4 "metrics" = some j5 →
      getIdx j5 mi = none →
      extract_metric report attr gi mi = .error .missingFieldError) := by
  refine ⟨?_, ?_, ?_, ?_, ?_, ?_⟩
  · intro h1
    exact extract_metric_of_path_none (by rw [metricPath, h1]; rfl)
  · intro j1 h1 h2
    exact extract_metric_of_path_none (by rw [metricPath, h1, Option.some_bind, h2]; rfl)
  · intro j1 j2 h1 h2 h3
    exact extract_metric_of_path_none (by
      rw [metricPath, h1, Option.some_bind, h2, Option.some_bind, h3]; rfl)
  · intro j1 j2 j3 h1 h2 h3 h4
    exact extract_metric_of_path_none (by
      rw [metricPath, h1, Option.some_bind, h2, Option.some_bind, h3,
        Option.some_bind, h4]; rfl)
  · intro j1 j2 j3 j4 h1 h2 h3 h4 h5
    exact extract_metric_of_path_none (by
      rw [metricPath, h1, Option.some_bind, h2, Option.some_bind, h3,
        Option.some_bind, h4, Option.some_bind, h5]; rfl)
  · intro j1 j2 j3 j4 j5 h1 h2 h3 h4 h5 h6
    exact extract_metric_of_path_none (by
      rw [metricPath, h1, Option.some_bind, h2, Option.some_bind, h3,
        Option.some_bind, h4, Option.some_bind, h5, Option.some_bind, h6])

/-- Witness for C7: a report lacking the "pre_training_bias_metrics" field
yields `MissingFieldError`. -/
theorem extract_metric_missing_field_witness :
    extract_metric (Json.obj []) "customer_gender_female" 0 1 =
      .error .missingFieldError :=
  (extract_metric_missing_field (Json.obj []) "customer_gender_female" 0 1).1 rfl

/-- C9: both report-reading cells select the displayed metric by fixed
position — index 1 of the "metrics" list under
pre_training_bias_metrics.facets.customer_gender_female[0] — not by metric
name: the two cells' extractions are the same function, and on any report
carrying any metrics list at that fixed path the result is the entry at
positional index 1 regardless of the metrics' names. -/
theorem metric_selected_by_position :
    (∀ report : Json, extractResults1 report = extractResults2 report) ∧
    (∀ ms tail : List Json, ∀ v : Json, ms.get? 1 = some v →
      extractResults1 (mkReport ms tail) = .ok v) := by
  constructor
  · intro report
    rfl
  · intro ms tail v hv
    rw [extractResults1, extract_metric, metricPath, mkReport]
    simp only [getField, getIdx, List.lookup, List.get?, Option.some_bind]
    norm_num
    rw [List.get?_eq_getElem?] at hv
    rw [hv]

/-- Witness for C9: on a report whose metrics list is three string entries,
the extraction returns the entry at index 1 ("one"), irrespective of its
content. -/
theorem metric_selected_by_position_witness :
    extractResults1 (mkReport [Json.str "zero", Json.str "one", Json.str "two"] []) =
      .ok (Json.str "one") :=
  metric_selected_by_position.2
    [Json.str "zero", Json.str "one", Json.str "two"] [] (Json.str "one") rfl

/-- C8: for every pair of bias reports from which a metric value can be
extracted, `compare` returns the arithmetic difference after − before of the
two extracted metric values. -/
theorem compare_delta (rb ra : Json) (b a : ℚ)
    (hb : extractValue rb = some b) (ha : extractValue ra = some a) :
    compareReports rb ra = .ok (a - b) := by
  rw [compareReports, hb, ha]

/-- The pre-balancing bias report of the end-to-end scenario: its class
imbalance metric value is 0.254. -/
def reportBefore : Json := mkReport
  [Json.str "ignored",
   Json.obj [("name", Json.str "CI"), ("value", Json.num (254/1000))]] []

/-- The post-balancing bias report of the end-to-end scenario: its class
imbalance metric value is 0.0. -/
def reportAfter : Json := mkReport
  [Json.str "ignored",
   Json.obj [("name", Json.str "CI"), ("value", Json.num 0)]] []

/-- Witness for C8: with before metric 0.254 and after metric 0.0,
`compare` returns −0.254. -/
theorem compare_delta_witness :
    compareReports reportBefore reportAfter = .ok (-(127/500) : ℚ) := by
  have h := compare_delta reportBefore reportAfter (254/1000) 0 rfl rfl
  rw [h]
  norm_num
